import Mathlib

/-!
Verification of the Kronecker GP inference engine in `src/kronecker.py`.

Modelling conventions (shallow embedding):

* Dense tensors are modelled by their entry functions together with explicit
  row/column counts: `M α` is a matrix, `V α` a vector.  Machine floats are
  modelled by exact numbers (`ℚ` for the algorithmic claims, `ℝ` where the
  source computes logarithms).
* `tf.reshape` is row-major, so it becomes index arithmetic:
  `reshape(v, [-1, c])` maps entry `i*c + j` of `v` to position `(i, j)`,
  and `reshape(A, [r, -1])` re-chunks the row-major flattening of `A`.
* `tf.while_loop(cond, body, vars)` becomes a fuel-indexed recursion
  `loop fuel s = if cond s then loop (fuel-1) (body s) else s`; in every use
  below the loop variables contain a counter bounded by the guard, and the
  fuel is chosen so that it never runs out before the guard turns false, so
  the recursion computes exactly the `tf.while_loop` fixpoint.
* `None`-able arguments become `Option` values.
-/

set_option maxRecDepth 8000

namespace PyPoint

/-- Dense matrix: row count, column count, and the entry function
(entries outside the stated bounds are irrelevant padding). -/
structure M (α : Type) where
  rows : ℕ
  cols : ℕ
  ent : ℕ → ℕ → α

/-- Dense vector: length and entry function. -/
structure V (α : Type) where
  len : ℕ
  ent : ℕ → α

variable {α : Type} [CommRing α]

/-- Embedding of `tf.transpose` on a rank-2 tensor. -/
def transposeM (A : M α) : M α :=
  ⟨A.cols, A.rows, fun i j => A.ent j i⟩

/-- Embedding of `tf.matmul A B`: entry `(i, j)` is the dot product of row `i`
of `A` with column `j` of `B`; the contraction length is `A.cols`. -/
def matmulM (A B : M α) : M α :=
  ⟨A.rows, B.cols, fun i j => ∑ t in Finset.range A.cols, A.ent i t * B.ent t j⟩

/-- Embedding of `tf.reshape(v, [-1, c])` (row-major): entry `(i, j)` of the
result is entry `i*c + j` of `v`. -/
def reshapeV (c : ℕ) (v : V α) : M α :=
  ⟨v.len / c, c, fun i j => v.ent (i * c + j)⟩

/-- Row-major flattening of a matrix, the semantics of `tf.reshape(A, [-1])`. -/
def flattenM (A : M α) : V α :=
  ⟨A.rows * A.cols, fun x => A.ent (x / A.cols) (x % A.cols)⟩

/-- Embedding of `tf.reshape(A, [r, -1])` (row-major): flatten `A` row-major
and re-chunk it into `r` rows of `A.rows * A.cols / r` entries each. -/
def reshapeM (r : ℕ) (A : M α) : M α :=
  ⟨r, A.rows * A.cols / r,
    fun i j => (flattenM A).ent (i * (A.rows * A.cols / r) + j)⟩

/-- Embedding of `kron(A, B)` (src/kronecker.py lines 504-527).  The Python
code stacks, for each row `i` of `A`, the horizontal concatenation of the
blocks `A[i, j] * B`; entry `(r, c)` of the stacked result is
`A[r / B.rows, c / B.cols] * B[r % B.rows, c % B.cols]`. -/
def kron (A B : M α) : M α :=
  ⟨A.rows * B.rows, A.cols * B.cols,
    fun r c => A.ent (r / B.rows) (c / B.cols) * B.ent (r % B.rows) (c % B.cols)⟩

/-- Embedding of `kron_list(matrices)` (lines 529-543): left fold of `kron`
starting from `kron(matrices[0], matrices[1])`.  The source raises an
`IndexError` on lists of fewer than two matrices; that case is mapped to an
empty matrix and is excluded by hypotheses wherever it matters. -/
def kron_list (ms : List (M α)) : M α :=
  match ms with
  | A :: B :: rest => rest.foldl kron (kron A B)
  | _ => ⟨0, 0, fun _ _ => 0⟩

/-- The body of the `for idx, k in enumerate(reversed(Ks))` loop of `kron_mvp`
for `idx > 0`: reshape the accumulator to `[k.rows, -1]`, multiply by `k`,
transpose (lines 560-564). -/
def mvpLoop (ks : List (M α)) (acc : M α) : M α :=
  match ks with
  | [] => acc
  | k :: rest => mvpLoop rest (transposeM (matmulM k (reshapeM k.rows acc)))

/-- Embedding of `kron_mvp(Ks, v)` (lines 546-566): initial state
`transpose(reshape(v, [-1, Ks[-1].rows]))`, a first multiply-transpose step by
the last factor (the `idx == 0` iteration, which skips the reshape), the
reshape-multiply-transpose loop over the remaining factors in reverse order,
and a final `reshape(transpose(mvp), [-1])`.  An empty factor list raises an
`IndexError` in the source and is mapped to the empty vector. -/
def kron_mvp (Ks : List (M α)) (v : V α) : V α :=
  match Ks.reverse with
  | [] => ⟨0, fun _ => 0⟩
  | kd :: rest =>
      flattenM (transposeM (mvpLoop rest (transposeM (matmulM kd (transposeM (reshapeV kd.rows v))))))

/-- Ordinary dense matrix-vector product (the reference computation the spec
compares `kron_mvp` against). -/
def matVecM (A : M α) (v : V α) : V α :=
  ⟨A.rows, fun i => ∑ t in Finset.range A.cols, A.ent i t * v.ent t⟩

/-- First concrete 2x2 factor used for the `kron_mvp` failing input. -/
def mK1 : M ℚ :=
  ⟨2, 2, fun i j => if i = 0 then (if j = 0 then 1 else 2) else (if j = 0 then 3 else 4)⟩

/-- Second concrete 2x2 factor used for the `kron_mvp` failing input. -/
def mK2 : M ℚ :=
  ⟨2, 2, fun i j => if i = 0 then (if j = 0 then 5 else 6) else (if j = 0 then 7 else 8)⟩

/-- Third concrete 2x2 factor used for the `kron_mvp` failing input. -/
def mK3 : M ℚ :=
  ⟨2, 2, fun i j => if i = 0 then (if j = 0 then 9 else 10) else (if j = 0 then 11 else 12)⟩

/-- The length-8 basis vector `e_2`, i.e. the indicator of the grid point with
multi-index `(0, 1, 0)` for three binary dimensions. -/
def vC1 : V ℚ := ⟨8, fun x => if x = 2 then 1 else 0⟩

/-- C1: on the three-factor input `Ks = [mK1, mK2, mK3]`, `v = e_2`,
the fast Kronecker mat-vec returns `90` at index `0` while the dense product
`kron_list(Ks) · v` has `54` there: for lists of three or more factors the
`reshape(mvp, [rows, -1])` step pairs each factor with the wrong tensor axis,
so `kron_mvp` disagrees with the dense Kronecker mat-vec its documentation
and the spec promise. -/
theorem kron_mvp_three_factor_bug :
    (kron_mvp [mK1, mK2, mK3] vC1).ent 0 = 90 ∧
      (matVecM (kron_list [mK1, mK2, mK3]) vC1).ent 0 = 54 ∧
      (kron_mvp [mK1, mK2, mK3] vC1).ent 0 ≠
        (matVecM (kron_list [mK1, mK2, mK3]) vC1).ent 0 := by
  have h1 : (kron_mvp [mK1, mK2, mK3] vC1).ent 0 = 90 := by
    simp [kron_mvp, mvpLoop, flattenM, transposeM, matmulM, reshapeM, reshapeV,
      mK1, mK2, mK3, vC1, Finset.sum_range_succ]
    norm_num
  have h2 : (matVecM (kron_list [mK1, mK2, mK3]) vC1).ent 0 = 54 := by
    simp [matVecM, kron_list, kron, mK1, mK2, mK3, vC1, Finset.sum_range_succ]
    norm_num
  refine ⟨h1, h2, ?_⟩
  rw [h1, h2]
  norm_num

/-- C10: for a single square factor `[K]` of size `m` and a vector of length
`m`, `kron_mvp` computes the ordinary matrix-vector product `K · v` (length
and all entries), covering the one-dimensional-grid case that `kron_list`
cannot express. -/
theorem kron_mvp_singleton (m : ℕ) (K : M ℚ) (v : V ℚ)
    (hr : K.rows = m) (_hc : K.cols = m) (hv : v.len = m) (hm : 0 < m) :
    (kron_mvp [K] v).len = m ∧
      ∀ i, (kron_mvp [K] v).ent i = (matVecM K v).ent i := by
  have hdiv : v.len / K.rows = 1 := by
    rw [hr, hv, Nat.div_self hm]
  constructor
  · show (flattenM _).len = m
    simp only [kron_mvp, List.reverse_cons, List.reverse_nil, List.nil_append, mvpLoop,
      flattenM, transposeM, matmulM, reshapeV]
    rw [hdiv, mul_one, hr]
  · intro i
    simp only [kron_mvp, List.reverse_cons, List.reverse_nil, List.nil_append, mvpLoop,
      flattenM, transposeM, matmulM, reshapeV, matVecM]
    rw [hdiv]
    simp [Nat.mod_one]

/-! ### Conjugate gradient (`CGOptimizer`, src/kronecker.py lines 361-450) -/

/-- The loop variables of the `tf.while_loop` in `CGOptimizer.cg` (line 447):
search direction `p`, iteration counter `count`, current solution estimate `x`
and current residual `r`. -/
structure CGState where
  p : ℕ → ℚ
  count : ℕ
  x : ℕ → ℚ
  r : ℕ → ℚ

/-- `tf.reduce_sum(tf.multiply(r, r))` over a length-`n` tensor. -/
def rss (n : ℕ) (r : ℕ → ℚ) : ℚ :=
  ∑ i in Finset.range n, r i * r i

/-- The CG residual tolerance `1e-5`. -/
def cgTol : ℚ := 1 / 100000

/-- Dot product of two length-`n` tensors, `tf.reduce_sum(tf.multiply(a, b))`. -/
def dotQ (n : ℕ) (a b : ℕ → ℚ) : ℚ :=
  ∑ i in Finset.range n, a i * b i

/-- Embedding of `CGOptimizer.cg_converged` (lines 367-383): the loop
continues while the residual sum of squares exceeds `1e-5` and the iteration
count is below `max_it`. -/
def cg_converged (n max_it : ℕ) (s : CGState) : Bool :=
  decide (cgTol < rss n s.r) && decide (s.count < max_it)

/-- Embedding of `CGOptimizer.cg_body` (lines 385-420): one CG step.  After
updating `x` and `r`, if the new residual sum of squares is already below
`1e-5` the direction update is skipped (the early `return` on line 412);
otherwise `p` is updated with the usual `beta` recurrence.  Division by zero
is modelled by the total field division of `ℚ` (the floats produce a non-finite
value there; no exception is raised either way). -/
def cg_body (prod : (ℕ → ℚ) → ℕ → ℚ) (n : ℕ) (s : CGState) : CGState :=
  let count := s.count + 1
  let Bp := prod s.p
  let norm_k := rss n s.r
  let alpha := norm_k / dotQ n s.p Bp
  let x := fun i => s.x i + alpha * s.p i
  let r := fun i => s.r i - alpha * Bp i
  if rss n r < cgTol then
    ⟨s.p, count, x, r⟩
  else
    let beta := rss n r / norm_k
    ⟨fun i => r i + beta * s.p i, count, x, r⟩

/-- Fuel-indexed unfolding of the `tf.while_loop` in `cg` (line 447).  The
loop guard bounds `count` by `max_it` and every body step increments `count`,
so fuel `max_it` (with initial `count = 0`) never runs out before the guard
turns false: the recursion computes exactly the `tf.while_loop` result. -/
def cgLoop (prod : (ℕ → ℚ) → ℕ → ℚ) (n max_it : ℕ) : ℕ → CGState → CGState
  | 0, s => s
  | fuel + 1, s =>
      if cg_converged n max_it s then cgLoop prod n max_it fuel (cg_body prod n s) else s

/-- Embedding of `CGOptimizer.cg` (lines 422-450) up to the final projection:
`n = b.len`, `max_it` defaults to `2n`, `x` defaults to the zero vector, the
initial residual is `r = b - cg_prod(x)` and the initial direction is `p = r`. -/
def cgFull (prod : (ℕ → ℚ) → ℕ → ℚ) (b : V ℚ) (x? : Option (ℕ → ℚ))
    (max_it? : Option ℕ) : CGState :=
  cgLoop prod b.len (max_it?.getD (2 * b.len)) (max_it?.getD (2 * b.len))
    ⟨fun i => b.ent i - prod (x?.getD (fun _ => 0)) i, 0, x?.getD (fun _ => 0),
      fun i => b.ent i - prod (x?.getD (fun _ => 0)) i⟩

/-- `CGOptimizer.cg` returns `fin[2]`, the solution estimate of the final
loop state (line 450). -/
def cg (prod : (ℕ → ℚ) → ℕ → ℚ) (b : V ℚ) (x? : Option (ℕ → ℚ))
    (max_it? : Option ℕ) : ℕ → ℚ :=
  (cgFull prod b x? max_it?).x

/-- One unfolding step of the CG `tf.while_loop`. -/
theorem cgLoop_succ (prod : (ℕ → ℚ) → ℕ → ℚ) (n max_it fuel : ℕ) (s : CGState) :
    cgLoop prod n max_it (fuel + 1) s =
      if cg_converged n max_it s then cgLoop prod n max_it fuel (cg_body prod n s) else s :=
  rfl

/-- Each CG body step increments the iteration counter by exactly one,
whichever exit it takes. -/
theorem cg_body_count (prod : (ℕ → ℚ) → ℕ → ℚ) (n : ℕ) (s : CGState) :
    (cg_body prod n s).count = s.count + 1 := by
  simp only [cg_body]
  split <;> rfl

/-- The final CG state performs at most `max (initial count) max_it` body
steps: the guard refuses to run the body once `count` reaches `max_it`. -/
theorem cgLoop_count_le (prod : (ℕ → ℚ) → ℕ → ℚ) (n max_it : ℕ) :
    ∀ fuel s, (cgLoop prod n max_it fuel s).count ≤ max s.count max_it := by
  intro fuel
  induction fuel with
  | zero => intro s; exact le_max_left _ _
  | succ fuel ih =>
      intro s
      rw [cgLoop_succ]
      by_cases h : cg_converged n max_it s = true
      · rw [if_pos h]
        refine le_trans (ih (cg_body prod n s)) (max_le ?_ (le_max_right _ _))
        have hc : s.count < max_it := by
          have h2 : (decide (cgTol < rss n s.r) && decide (s.count < max_it)) = true := h
          exact of_decide_eq_true ((Bool.and_eq_true _ _).mp h2).2
        rw [cg_body_count]
        exact le_max_of_le_right hc
      · rw [if_neg h]
        exact le_max_left _ _

/-- If the fuel dominates `max_it - count`, the loop only stops with the guard
false: at exit the residual is within tolerance or the iteration cap is hit. -/
theorem cgLoop_exit (prod : (ℕ → ℚ) → ℕ → ℚ) (n max_it : ℕ) :
    ∀ fuel s, max_it ≤ s.count + fuel →
      cg_converged n max_it (cgLoop prod n max_it fuel s) = false := by
  intro fuel
  induction fuel with
  | zero =>
      intro s hs
      show cg_converged n max_it s = false
      unfold cg_converged
      simp only [Bool.and_eq_false_iff, decide_eq_false_iff_not, not_lt]
      right
      simpa using hs
  | succ fuel ih =>
      intro s hs
      rw [cgLoop_succ]
      by_cases h : cg_converged n max_it s = true
      · rw [if_pos h]
        refine ih (cg_body prod n s) ?_
        rw [cg_body_count]
        omega
      · rw [if_neg h]
        exact Bool.eq_false_iff.mpr h

/-- C5: for every right-hand side and matrix-vector callback, `cg` performs at
most `max_it` iterations (`2 · len(b)` when no `max_it` is given), the loop
only stops because the residual sum of squares is within the `1e-5` tolerance
or the cap is reached, and the returned value is the solution estimate `x` of
the final state — the function is total, so no error or non-convergence signal
is ever produced. -/
theorem cg_terminates (prod : (ℕ → ℚ) → ℕ → ℚ) (b : V ℚ) (x? : Option (ℕ → ℚ))
    (max_it? : Option ℕ) :
    (cgFull prod b x? max_it?).count ≤ max_it?.getD (2 * b.len) ∧
      (rss b.len (cgFull prod b x? max_it?).r ≤ cgTol ∨
        (cgFull prod b x? max_it?).count = max_it?.getD (2 * b.len)) ∧
      cg prod b x? max_it? = (cgFull prod b x? max_it?).x := by
  have h1 : (cgFull prod b x? max_it?).count ≤ max_it?.getD (2 * b.len) := by
    have h0 := cgLoop_count_le prod b.len (max_it?.getD (2 * b.len)) (max_it?.getD (2 * b.len))
      ⟨fun i => b.ent i - prod (x?.getD (fun _ => 0)) i, 0,
        x?.getD (fun _ => 0), fun i => b.ent i - prod (x?.getD (fun _ => 0)) i⟩
    simpa [cgFull] using h0
  have h2 : cg_converged b.len (max_it?.getD (2 * b.len)) (cgFull prod b x? max_it?) = false :=
    cgLoop_exit prod b.len (max_it?.getD (2 * b.len)) (max_it?.getD (2 * b.len))
      ⟨fun i => b.ent i - prod (x?.getD (fun _ => 0)) i, 0,
        x?.getD (fun _ => 0), fun i => b.ent i - prod (x?.getD (fun _ => 0)) i⟩
      (by omega)
  refine ⟨h1, ?_, rfl⟩
  unfold cg_converged at h2
  simp only [Bool.and_eq_false_iff, decide_eq_false_iff_not, not_lt] at h2
  rcases h2 with h2 | h2
  · exact Or.inl h2
  · exact Or.inr (le_antisymm h1 h2)

/-- C7: if the initial residual `b - cg_prod(x)` already has sum of squares
below `1e-5`, the loop guard is false at entry: `cg` performs no iterations
and returns the initial `x` (the supplied one, or the zero default). -/
theorem cg_early_exit (prod : (ℕ → ℚ) → ℕ → ℚ) (b : V ℚ) (x? : Option (ℕ → ℚ))
    (max_it? : Option ℕ)
    (h : rss b.len (fun i => b.ent i - prod (x?.getD (fun _ => 0)) i) < cgTol) :
    cg prod b x? max_it? = x?.getD (fun _ => 0) ∧
      (cgFull prod b x? max_it?).count = 0 := by
  have hguard : ∀ mi, cg_converged b.len mi
      ⟨fun i => b.ent i - prod (x?.getD (fun _ => 0)) i, 0,
        x?.getD (fun _ => 0), fun i => b.ent i - prod (x?.getD (fun _ => 0)) i⟩ = false := by
    intro mi
    unfold cg_converged
    simp only [Bool.and_eq_false_iff, decide_eq_false_iff_not, not_lt]
    exact Or.inl (le_of_lt h)
  have hstop : cgFull prod b x? max_it? =
      ⟨fun i => b.ent i - prod (x?.getD (fun _ => 0)) i, 0,
        x?.getD (fun _ => 0), fun i => b.ent i - prod (x?.getD (fun _ => 0)) i⟩ := by
    unfold cgFull
    cases hmi : max_it?.getD (2 * b.len) with
    | zero => rfl
    | succ fuel =>
        rw [cgLoop_succ, hguard (fuel + 1)]
        simp
  refine ⟨?_, ?_⟩
  · show (cgFull prod b x? max_it?).x = _
    rw [hstop]
  · rw [hstop]

/-- The identity callback (the mat-vec of `A = I`), used as concrete input. -/
def idProd : (ℕ → ℚ) → ℕ → ℚ := fun v => v

/-- Length-1 zero right-hand side, used as concrete input. -/
def cgB0 : V ℚ := ⟨1, fun _ => 0⟩

/-- Witness for C7: with `b = 0` of length 1, the identity callback and the
default zero start, the initial residual is `0 < 1e-5`, so `cg` returns the
initial `x` after zero iterations. -/
theorem cg_early_exit_witness :
    rss cgB0.len (fun i => cgB0.ent i - idProd ((none : Option (ℕ → ℚ)).getD (fun _ => 0)) i) < cgTol ∧
      (cg idProd cgB0 none none = ((none : Option (ℕ → ℚ)).getD (fun _ => 0)) ∧
        (cgFull idProd cgB0 none none).count = 0) := by
  have h : rss cgB0.len
      (fun i => cgB0.ent i - idProd ((none : Option (ℕ → ℚ)).getD (fun _ => 0)) i) < cgTol := by
    simp [rss, cgTol, cgB0, idProd, Finset.sum_range_succ]
  exact ⟨h, cg_early_exit idProd cgB0 none none h⟩

/-! ### The inference engine state and its objective (`KroneckerSolver`) -/

/-- Snapshot of the `KroneckerSolver` instance fields read or written by the
Newton step and the line search: grid size `n`, Kronecker factors `Ks`, prior
mean `mu`, observations `y`, optional diagonal noise `kdiag`, optional boolean
`mask`, line-search shrink factor `tau`, the elementwise log-likelihood, the
iterate `alpha`, and the cached `W`, `f` and `grads` tensors. -/
structure Engine where
  n : ℕ
  Ks : List (M ℚ)
  mu : ℕ → ℚ
  y : ℕ → ℚ
  kdiag : Option (ℕ → ℚ)
  mask : Option (ℕ → Bool)
  tau : ℚ
  loglike : ℚ → ℚ → ℚ
  alpha : ℕ → ℚ
  W : ℕ → ℚ
  f : ℕ → ℚ
  grads : ℕ → ℚ

/-- Embedding of `KroneckerSolver.eval_obj` (lines 247-267):
`-Σ log_like(y, f) + 0.5 Σ alpha·(f - mu)`, all three sums restricted by
`tf.boolean_mask` when a mask is present. -/
def eval_obj (e : Engine) (f a : ℕ → ℚ) : ℚ :=
  match e.mask with
  | some msk =>
      -(∑ i in (Finset.range e.n).filter (fun i => msk i = true), e.loglike (e.y i) (f i)) +
        (1 / 2) * ∑ i in (Finset.range e.n).filter (fun i => msk i = true), a i * (f i - e.mu i)
  | none =>
      -(∑ i in Finset.range e.n, e.loglike (e.y i) (f i)) +
        (1 / 2) * ∑ i in Finset.range e.n, a i * (f i - e.mu i)

/-- The line-search candidate iterate `alpha + step_size * delta_alpha`
(line 224). -/
def alphaSearch (e : Engine) (delta : ℕ → ℚ) (step : ℚ) : ℕ → ℚ :=
  fun i => e.alpha i + step * delta i

/-- The function values `search_step` derives from a candidate iterate
(lines 225-228): `kron_mvp(Ks, alpha_search) + mu`, plus
`k_diag * alpha_search` when — as written in the source — a MASK is present
(the source reads `self.k_diag` there and would raise a `TypeError` if the
mask were present without `k_diag`; that configuration is modelled by the
`getD` default). -/
def fSearch (e : Engine) (a : ℕ → ℚ) : ℕ → ℚ :=
  match e.mask with
  | some _ => fun i =>
      (kron_mvp e.Ks ⟨e.n, a⟩).ent i + e.mu i + (e.kdiag.getD (fun _ => 0)) i * a i
  | none => fun i => (kron_mvp e.Ks ⟨e.n, a⟩).ent i + e.mu i

/-- The objective value `search_step` computes for a given trial step size
(line 230): `eval_obj(f_search, alpha_search)`. -/
def candidateObj (e : Engine) (delta : ℕ → ℚ) (step : ℚ) : ℚ :=
  eval_obj e (fSearch e (alphaSearch e delta step)) (alphaSearch e delta step)

/-- The loop variables of the line-search `tf.while_loop`
(lines 203-204): previous objective, current trial objective, running minimum,
search direction, current trial step size, iteration cap, iteration counter,
and best step found so far. -/
structure LSState where
  obj_prev : ℚ
  obj_search : ℚ
  min_obj : ℚ
  delta_alpha : ℕ → ℚ
  step_size : ℚ
  max_it : ℕ
  t : ℕ
  opt_step : ℚ

/-- Embedding of `KroneckerSolver.search_step` (lines 208-237): evaluate the
candidate objective, record the trial step size and the new minimum exactly
when the candidate is strictly below the running minimum (both `tf.cond`
comparisons read the pre-update `min_obj`), shrink the step size by `tau` and
advance the counter. -/
def search_step (e : Engine) (s : LSState) : LSState :=
  let obj := candidateObj e s.delta_alpha s.step_size
  { obj_prev := s.obj_prev
    obj_search := obj
    min_obj := if s.min_obj > obj then obj else s.min_obj
    delta_alpha := s.delta_alpha
    step_size := e.tau * s.step_size
    max_it := s.max_it
    t := s.t + 1
    opt_step := if s.min_obj > obj then s.step_size else s.opt_step }

/-- Embedding of `KroneckerSolver.converge_line` (lines 239-245): the loop
CONTINUES while `t < max_it` and `obj_prev - obj_search < step_size * t`. -/
def converge_line (s : LSState) : Bool :=
  decide (s.t < s.max_it) && decide (s.obj_prev - s.obj_search < s.step_size * (s.t : ℚ))

/-- Fuel-indexed unfolding of the line-search `tf.while_loop` (line 203).
The guard bounds `t` by `max_it` and every step increments `t`, so with the
initial `t = 1` and fuel `max_it` the fuel never runs out before the guard
turns false. -/
def lsLoop (e : Engine) : ℕ → LSState → LSState
  | 0, s => s
  | fuel + 1, s => if converge_line s then lsLoop e fuel (search_step e s) else s

/-- `sys.float_info.max`, the initial `obj_search` (line 197). -/
def floatMax : ℚ := 17976931348623157 * 10 ^ 292

/-- Embedding of `KroneckerSolver.line_search` (lines 186-206): run the
backtracking loop from `obj_search = sys.float_info.max`,
`min_obj = obj_prev`, `step_size = 2.0`, `t = 1`, `opt_step = 0.0`, and
return the final `opt_step` (`res[-1]`). -/
def line_search (e : Engine) (delta : ℕ → ℚ) (obj_prev : ℚ) (max_it : ℕ) : ℚ :=
  (lsLoop e max_it
    { obj_prev := obj_prev, obj_search := floatMax, min_obj := obj_prev,
      delta_alpha := delta, step_size := 2, max_it := max_it, t := 1,
      opt_step := 0 }).opt_step

/-- One unfolding step of the line-search `tf.while_loop`. -/
theorem lsLoop_succ (e : Engine) (fuel : ℕ) (s : LSState) :
    lsLoop e (fuel + 1) s =
      if converge_line s then lsLoop e fuel (search_step e s) else s :=
  rfl

/-- A concrete line-search state with `t = 1 < max_it = 20` and
`obj_prev - obj_search = 0 < step_size * t = 2`. -/
def lsCexState : LSState :=
  { obj_prev := 10, obj_search := 10, min_obj := 10, delta_alpha := fun _ => 0,
    step_size := 2, max_it := 20, t := 1, opt_step := 0 }

/-- A trivial engine configuration used with `lsCexState`. -/
def lsCexEngine : Engine :=
  { n := 0, Ks := [], mu := fun _ => 0, y := fun _ => 0, kdiag := none,
    mask := none, tau := 1 / 2, loglike := fun _ _ => 0, alpha := fun _ => 0,
    W := fun _ => 0, f := fun _ => 0, grads := fun _ => 0 }

/-- C3 counterexample: at `lsCexState` both `t < max_it` and
`(obj_prev - obj_search) < step_size * t` hold, so the claim says the
backtracking loop terminates here; the code's `converge_line` is the CONTINUE
condition and is `true`, and the loop indeed performs another backtracking
step (the counter advances to 2).  The claim has the inequality's role
inverted. -/
theorem converge_line_claim_false :
    converge_line lsCexState = true ∧
      lsCexState.t < lsCexState.max_it ∧
      lsCexState.obj_prev - lsCexState.obj_search <
        lsCexState.step_size * (lsCexState.t : ℚ) ∧
      (lsLoop lsCexEngine 1 lsCexState).t = 2 := by
  have h1 : converge_line lsCexState = true := by
    simp [converge_line, lsCexState]
  refine ⟨h1, by simp [lsCexState], by simp [lsCexState], ?_⟩
  rw [lsLoop_succ, if_pos h1]
  rfl

/-- C3 (amended): the backtracking loop performs another search step exactly
when `t < max_it` AND `(obj_prev - obj_search) < step_size * t` both hold;
it terminates exactly when `t ≥ max_it` OR
`(obj_prev - obj_search) ≥ step_size * t`. -/
theorem lsLoop_termination (e : Engine) (fuel : ℕ) (s : LSState) :
    lsLoop e (fuel + 1) s =
      if s.max_it ≤ s.t ∨ s.step_size * (s.t : ℚ) ≤ s.obj_prev - s.obj_search
      then s
      else lsLoop e fuel (search_step e s) := by
  rw [lsLoop_succ]
  by_cases h1 : s.t < s.max_it
  · by_cases h2 : s.obj_prev - s.obj_search < s.step_size * (s.t : ℚ)
    · rw [if_pos, if_neg]
      · push_neg
        exact ⟨h1, h2⟩
      · unfold converge_line
        rw [decide_eq_true h1, decide_eq_true h2]
        rfl
    · rw [if_neg, if_pos (Or.inr (not_lt.mp h2))]
      unfold converge_line
      rw [decide_eq_false h2]
      simp
  · rw [if_neg, if_pos (Or.inl (not_lt.mp h1))]
    unfold converge_line
    rw [decide_eq_false h1]
    simp

/-- Witness for C3 (amended): at `lsCexState`, neither `t ≥ max_it` nor
`step_size * t ≤ obj_prev - obj_search` holds, and the unfolding equation
says the loop takes another backtracking step. -/
theorem lsLoop_termination_witness :
    lsLoop lsCexEngine 1 lsCexState =
      (if lsCexState.max_it ≤ lsCexState.t ∨
          lsCexState.step_size * (lsCexState.t : ℚ) ≤
            lsCexState.obj_prev - lsCexState.obj_search
        then lsCexState
        else lsLoop lsCexEngine 0 (search_step lsCexEngine lsCexState)) :=
  lsLoop_termination lsCexEngine 0 lsCexState

/-- The bookkeeping invariant of the backtracking loop: either no candidate
has improved on the starting objective and `opt_step` is still `0.0` with
`min_obj` still the starting objective, or `min_obj` is the objective of the
recorded `opt_step` and is strictly below the starting objective. -/
theorem lsLoop_invariant (e : Engine) (ψ : ℚ) (δ : ℕ → ℚ) :
    ∀ fuel s, s.obj_prev = ψ → s.delta_alpha = δ →
      ((s.opt_step = 0 ∧ s.min_obj = ψ) ∨
        (s.min_obj = candidateObj e δ s.opt_step ∧ s.min_obj < ψ)) →
      ((lsLoop e fuel s).opt_step = 0 ∧ (lsLoop e fuel s).min_obj = ψ) ∨
        ((lsLoop e fuel s).min_obj = candidateObj e δ (lsLoop e fuel s).opt_step ∧
          (lsLoop e fuel s).min_obj < ψ) := by
  intro fuel
  induction fuel with
  | zero => intro s _ _ hinv; exact hinv
  | succ fuel ih =>
      intro s hprev hdelta hinv
      subst hdelta
      rw [lsLoop_succ]
      by_cases h : converge_line s = true
      · rw [if_pos h]
        refine ih (search_step e s) hprev rfl ?_
        simp only [search_step]
        by_cases himp : s.min_obj > candidateObj e s.delta_alpha s.step_size
        · right
          constructor
          · simp only [if_pos himp]
          · simp only [if_pos himp]
            rcases hinv with ⟨_, hmin⟩ | ⟨_, hmin⟩
            · rw [← hmin]; exact himp
            · exact lt_trans himp hmin
        · rcases hinv with ⟨hopt, hmin⟩ | ⟨hmin, hlt⟩
          · left
            exact ⟨by simp only [if_neg himp]; exact hopt,
              by simp only [if_neg himp]; exact hmin⟩
          · right
            exact ⟨by simp only [if_neg himp]; exact hmin,
              by simp only [if_neg himp]; exact hlt⟩
      · rw [if_neg h]
        exact hinv

/-- C6: the line search never returns a step whose candidate objective is not
strictly below the pre-step objective `obj_prev`: either the returned step is
exactly `0.0` (no candidate ever improved on the running minimum, which is
initialised to `obj_prev`), or its candidate objective is strictly below
`obj_prev`. -/
theorem line_search_no_increase (e : Engine) (δ : ℕ → ℚ) (ψ : ℚ) (max_it : ℕ) :
    line_search e δ ψ max_it = 0 ∨
      candidateObj e δ (line_search e δ ψ max_it) < ψ := by
  have h := lsLoop_invariant e ψ δ max_it
    { obj_prev := ψ, obj_search := floatMax, min_obj := ψ, delta_alpha := δ,
      step_size := 2, max_it := max_it, t := 1, opt_step := 0 }
    rfl rfl (Or.inl ⟨rfl, rfl⟩)
  unfold line_search
  rcases h with ⟨hopt, _⟩ | ⟨hmin, hlt⟩
  · exact Or.inl hopt
  · exact Or.inr (hmin ▸ hlt)

/-! ### The three places `f` is derived from `alpha` (C4) -/

/-- The function values computed at the start of a Newton step
(lines 142-144): `kron_mvp(Ks, alpha) + mu`, plus `alpha * k_diag` exactly
when `k_diag` is present. -/
def fStep (e : Engine) : ℕ → ℚ :=
  match e.kdiag with
  | some kd => fun i => (kron_mvp e.Ks ⟨e.n, e.alpha⟩).ent i + e.mu i + e.alpha i * kd i
  | none => fun i => (kron_mvp e.Ks ⟨e.n, e.alpha⟩).ent i + e.mu i

/-- The function values recomputed by `run` after the Newton loop (line 123):
`kron_mvp(Ks, alpha) + mu`, with no diagonal correction in any configuration. -/
def fRunPost (e : Engine) : ℕ → ℚ :=
  fun i => (kron_mvp e.Ks ⟨e.n, e.alpha⟩).ent i + e.mu i

/-- The formula claimed for every derivation of `f`:
`kron_mvp(Ks, alpha) + mu` plus the elementwise correction `alpha * k_diag`
exactly when `k_diag` is present. -/
def fClaimed (e : Engine) (a : ℕ → ℚ) : ℕ → ℚ :=
  fun i => (kron_mvp e.Ks ⟨e.n, a⟩).ent i + e.mu i +
    (match e.kdiag with
     | some kd => a i * kd i
     | none => 0)

/-- Engine with `k_diag` present and no mask, on a one-point grid. -/
def eC4 : Engine :=
  { n := 1, Ks := [⟨1, 1, fun _ _ => 1⟩], mu := fun _ => 0, y := fun _ => 0,
    kdiag := some (fun _ => 1), mask := none, tau := 1 / 2,
    loglike := fun _ _ => 0, alpha := fun _ => 1, W := fun _ => 0,
    f := fun _ => 0, grads := fun _ => 0 }

/-- C4 counterexample: with `k_diag` present and no mask, the line-search
candidate `f_search` is `1` (no correction: the source guards the correction
by `mask`, not by `k_diag`) while the claimed formula gives `2`; and `run`'s
recomputation of `f` after the Newton loop also omits the correction. -/
theorem f_derivation_claim_false :
    fSearch eC4 (fun _ => 1) 0 = 1 ∧
      fClaimed eC4 (fun _ => 1) 0 = 2 ∧
      fSearch eC4 (fun _ => 1) 0 ≠ fClaimed eC4 (fun _ => 1) 0 ∧
      fRunPost eC4 0 ≠ fClaimed eC4 eC4.alpha 0 := by
  have h1 : fSearch eC4 (fun _ => 1) 0 = 1 := by
    simp [fSearch, eC4, kron_mvp, mvpLoop, flattenM, transposeM, matmulM, reshapeV,
      Finset.sum_range_succ]
  have h2 : fClaimed eC4 (fun _ => 1) 0 = 2 := by
    simp [fClaimed, eC4, kron_mvp, mvpLoop, flattenM, transposeM, matmulM, reshapeV,
      Finset.sum_range_succ]
    norm_num
  have h3 : fRunPost eC4 0 = 1 := by
    simp [fRunPost, eC4, kron_mvp, mvpLoop, flattenM, transposeM, matmulM, reshapeV,
      Finset.sum_range_succ]
  have h4 : fClaimed eC4 eC4.alpha 0 = 2 := by
    simp [fClaimed, eC4, kron_mvp, mvpLoop, flattenM, transposeM, matmulM, reshapeV,
      Finset.sum_range_succ]
    norm_num
  refine ⟨h1, h2, ?_, ?_⟩
  · rw [h1, h2]; norm_num
  · rw [h3, h4]; norm_num

/-- C4 (amended): `f` is `kron_mvp(Ks, alpha) + mu` at all three sites, but
the diagonal correction is applied exactly when `k_diag` is present only in
`step`; in `search_step` it is applied exactly when a MASK is present (reading
`k_diag` regardless), and in `run`'s recomputation it is never applied. -/
theorem f_derivation_sites (e : Engine) (a : ℕ → ℚ) (i : ℕ) :
    fStep e i = (kron_mvp e.Ks ⟨e.n, e.alpha⟩).ent i + e.mu i +
        (match e.kdiag with
         | some kd => e.alpha i * kd i
         | none => 0) ∧
      fSearch e a i = (kron_mvp e.Ks ⟨e.n, a⟩).ent i + e.mu i +
        (match e.mask with
         | some _ => (e.kdiag.getD (fun _ => 0)) i * a i
         | none => 0) ∧
      fRunPost e i = (kron_mvp e.Ks ⟨e.n, e.alpha⟩).ent i + e.mu i := by
  refine ⟨?_, ?_, rfl⟩
  · cases hk : e.kdiag <;> simp [fStep, hk]
  · cases hm : e.mask <;> simp [fSearch, hm]

/-! ### Frame property of the line search (C9) -/

/-- Embedding of `KroneckerSolver.line_search` as a state transformer on the
engine.  The Python method (lines 186-206) and the `search_step` body it
iterates (lines 208-237) read `self.alpha`, `self.Ks`, `self.mu`, `self.y`,
`self.mask`, `self.k_diag`, `self.tau` and the likelihood but contain no
assignment to any `self` attribute, so the embedding returns the engine
unchanged next to the chosen step size. -/
def line_searchS (e : Engine) (delta : ℕ → ℚ) (obj_prev : ℚ) (max_it : ℕ) :
    Engine × ℚ :=
  (e, line_search e delta obj_prev max_it)

/-- C9: calling the line search leaves every engine field (`alpha`, `Ks`,
`W`, `mu`, `y`, `mask`, `k_diag`, ...) unchanged and returns the same step
size as the pure `line_search` function; the iterate can only change at the
explicit `alpha` update inside `step`. -/
theorem line_search_frame (e : Engine) (delta : ℕ → ℚ) (obj_prev : ℚ) (max_it : ℕ) :
    (line_searchS e delta obj_prev max_it).1 = e ∧
      (line_searchS e delta obj_prev max_it).2 = line_search e delta obj_prev max_it :=
  ⟨rfl, rfl⟩

/-! ### The NaN clamp on the Newton update (C8) -/

/-- A float that may be NaN: `none` is NaN, `some q` a finite value. -/
def fadd : Option ℚ → Option ℚ → Option ℚ
  | some a, some b => some (a + b)
  | _, _ => none

/-- NaN-propagating multiplication. -/
def fmul : Option ℚ → Option ℚ → Option ℚ
  | some a, some b => some (a * b)
  | _, _ => none

/-- Elementwise `tf.is_nan`. -/
def isNanF (x : Option ℚ) : Bool := x.isNone

/-- Elementwise `tf.where(c, a, b)`. -/
def tfWhere (c : Bool) (a b : Option ℚ) : Option ℚ := if c then a else b

/-- Line 169: `alpha + delta_alpha * step_size`, elementwise with NaN
propagation. -/
def alphaUpdate (alpha delta : ℕ → Option ℚ) (step : Option ℚ) : ℕ → Option ℚ :=
  fun i => fadd (alpha i) (fmul (delta i) step)

/-- Line 170: `tf.where(tf.is_nan(alpha), tf.ones_like(alpha) * 1e-9, alpha)`. -/
def alphaClamp (a : ℕ → Option ℚ) : ℕ → Option ℚ :=
  fun i => tfWhere (isNanF (a i)) (fmul (some 1) (some (1 / 10 ^ 9))) (a i)

/-- C8: after the Newton update `alpha + delta_alpha * step_size`, the clamp
replaces each NaN entry by `1e-9`, leaves every non-NaN entry unchanged, and
the resulting entry is always a finite value — the recovery is local and no
error reaches the caller. -/
theorem alpha_nan_clamp (alpha delta : ℕ → Option ℚ) (step : Option ℚ) (i : ℕ) :
    alphaClamp (alphaUpdate alpha delta step) i =
        (if (alphaUpdate alpha delta step i).isNone then some (1 / 10 ^ 9)
          else alphaUpdate alpha delta step i) ∧
      (alphaClamp (alphaUpdate alpha delta step) i).isSome = true := by
  constructor
  · cases h : alphaUpdate alpha delta step i <;>
      simp [alphaClamp, tfWhere, isNanF, fmul, h]
  · cases h : alphaUpdate alpha delta step i <;>
      simp [alphaClamp, tfWhere, isNanF, fmul, h]

/-- Length-2 concrete vector for the C10 witness. -/
def vW : V ℚ := ⟨2, fun i => if i = 0 then 5 else 7⟩

/-- Witness for C10: the singleton theorem applied to the concrete 2x2 matrix
`mK1` and the vector `(5, 7)`. -/
theorem kron_mvp_singleton_witness :
    (mK1.rows = 2 ∧ mK1.cols = 2 ∧ vW.len = 2 ∧ 0 < 2) ∧
      ((kron_mvp [mK1] vW).len = 2 ∧
        ∀ i, (kron_mvp [mK1] vW).ent i = (matVecM mK1 vW).ent i) :=
  ⟨⟨rfl, rfl, rfl, by decide⟩,
    kron_mvp_singleton 2 mK1 vW rfl rfl rfl (by decide)⟩

/-! ### Marginal likelihood via Kronecker eigenvalues (C2)

`KroneckerSolver.marginal` (lines 269-302) computes the per-dimension
eigenvalues with the TF library routine `tf.self_adjoint_eig`, which returns
the eigenvalues of a symmetric matrix in ascending order.  Eigendecomposition
is library code, not repository code, so eigenvalue vectors enter the model as
inputs constrained by the predicate `IsEigDecompOn` below; the marginal is
computed over `ℝ` because the formula takes logarithms. -/

/-- The `n × n` identity matrix over `ℝ`. -/
noncomputable def idMR (n : ℕ) : M ℝ :=
  ⟨n, n, fun i j => if i = j then 1 else 0⟩

/-- The `n × n` diagonal matrix over `ℝ` with diagonal `d`. -/
noncomputable def diagMR (n : ℕ) (d : ℕ → ℝ) : M ℝ :=
  ⟨n, n, fun i j => if i = j then d i else 0⟩

/-- Equality of two matrices on their top-left `n × n` block. -/
def EqOnN (n : ℕ) (A B : M ℝ) : Prop :=
  ∀ i < n, ∀ j < n, A.ent i j = B.ent i j

/-- `ev` together with the orthogonal matrix `P` is an ascending
eigendecomposition of the `n × n` matrix `A` — the contract of
`tf.self_adjoint_eig` on a symmetric input: `A = P · diag(ev) · Pᵀ`,
`P · Pᵀ = I`, and `ev` ascending on the first `n` indices. -/
def IsEigDecompOn (n : ℕ) (A : M ℝ) (ev : ℕ → ℝ) (P : M ℝ) : Prop :=
  P.rows = n ∧ P.cols = n ∧
    EqOnN n A (matmulM P (matmulM (diagMR n ev) (transposeM P))) ∧
    EqOnN n (matmulM P (transposeM P)) (idMR n) ∧
    ∀ i j, i ≤ j → j < n → ev i ≤ ev j

/-- `tf.expand_dims(ev, 1)` (line 285): an `m × 1` column matrix. -/
noncomputable def colM (m : ℕ) (ev : ℕ → ℝ) : M ℝ :=
  ⟨m, 1, fun i _ => ev i⟩

/-- `tf.squeeze(kron_list(eigs))` (line 286): the flattened Kronecker product
of the per-dimension eigenvalue columns, each given as (size, values). -/
noncomputable def eigKron (evs : List (ℕ × (ℕ → ℝ))) : ℕ → ℝ :=
  fun x => (kron_list (evs.map (fun p => colM p.1 p.2))).ent x 0

/-- Embedding of `KroneckerSolver.marginal` (lines 269-302, unmasked branch)
with the per-dimension eigenvalue vectors supplied as inputs:
`-0.5 Σ alpha (f - mu) - 0.5 Σ log(1 + eig_K * W) + Σ log_like(y, f)` where
`eig_K` is the flattened Kronecker product of the per-dimension eigenvalues. -/
noncomputable def marginalKron (n : ℕ) (mu y alpha f W : ℕ → ℝ)
    (ll : ℝ → ℝ → ℝ) (evs : List (ℕ × (ℕ → ℝ))) : ℝ :=
  -(1 / 2) * (∑ i in Finset.range n, alpha i * (f i - mu i)) -
    (1 / 2) * (∑ i in Finset.range n, Real.log (1 + eigKron evs i * W i)) +
    ∑ i in Finset.range n, ll (y i) (f i)

/-- Modelled from the spec: the comparison computation that explicitly forms
`K = kron_list(Ks)` and takes its eigendecomposition (a computation that
exists only as a testable property in the spec, not in the source), then
evaluates the same marginal-likelihood formula with that explicit eigenvalue
vector; the eigendecomposition itself is constrained by `IsEigDecompOn` in
the theorems below. -/
noncomputable def marginalExplicit (n : ℕ) (mu y alpha f W : ℕ → ℝ)
    (ll : ℝ → ℝ → ℝ) (evK : ℕ → ℝ) : ℝ :=
  -(1 / 2) * (∑ i in Finset.range n, alpha i * (f i - mu i)) -
    (1 / 2) * (∑ i in Finset.range n, Real.log (1 + evK i * W i)) +
    ∑ i in Finset.range n, ll (y i) (f i)

/-- Concrete diagonal kernel factor `diag(1, 2)`. -/
noncomputable def dA : M ℝ :=
  ⟨2, 2, fun i j => if i = 0 ∧ j = 0 then 1 else if i = 1 ∧ j = 1 then 2 else 0⟩

/-- Concrete diagonal kernel factor `diag(1, 5)`. -/
noncomputable def dB : M ℝ :=
  ⟨2, 2, fun i j => if i = 0 ∧ j = 0 then 1 else if i = 1 ∧ j = 1 then 5 else 0⟩

/-- Ascending eigenvalues of `dA`. -/
noncomputable def evA : ℕ → ℝ := fun i => if i = 0 then 1 else 2

/-- Ascending eigenvalues of `dB`. -/
noncomputable def evB : ℕ → ℝ := fun i => if i = 0 then 1 else 5

/-- Ascending eigenvalues of `kron_list [dA, dB] = diag(1, 5, 2, 10)`. -/
noncomputable def evK4 : ℕ → ℝ :=
  fun i => if i = 0 then 1 else if i = 1 then 2 else if i = 2 then 5 else 10

/-- The permutation matrix exchanging indices 1 and 2, orthogonal and
diagonalising `diag(1, 5, 2, 10)` with the ascending eigenvalue vector. -/
noncomputable def pSwap : M ℝ :=
  ⟨4, 4, fun i j => if j = (if i = 1 then 2 else if i = 2 then 1 else i) then 1 else 0⟩

/-- The zero vector over `ℝ`. -/
noncomputable def zf : ℕ → ℝ := fun _ => 0

/-- The identically-zero log-likelihood. -/
noncomputable def llZero : ℝ → ℝ → ℝ := fun _ _ => 0

/-- A non-constant `W`: the indicator of index 1. -/
noncomputable def wC2 : ℕ → ℝ := fun i => if i = 1 then 1 else 0

/-- C2 counterexample: for the engine state with `Ks = [diag(1,2), diag(1,5)]`,
`alpha = 0`, `f = mu`, zero log-likelihood and `W = (0,1,0,0)`, valid ascending
eigendecompositions of both factors and of the explicit `kron_list` product
exist (exhibited concretely), yet the marginal computed with the Kronecker
eigenvalue order (`-0.5·log 6`) differs from the marginal computed with the
ascending eigenvalues of the explicit product (`-0.5·log 3`): the flattened
Kronecker eigenvalue vector `(1, 5, 2, 10)` pairs index 1 with `W = 1`, while
the ascending explicit vector `(1, 2, 5, 10)` pairs a different eigenvalue
there. -/
theorem marginal_eig_pairing_mismatch :
    IsEigDecompOn 2 dA evA (idMR 2) ∧ IsEigDecompOn 2 dB evB (idMR 2) ∧
      IsEigDecompOn 4 (kron_list [dA, dB]) evK4 pSwap ∧
      marginalKron 4 zf zf zf zf wC2 llZero [(2, evA), (2, evB)] ≠
        marginalExplicit 4 zf zf zf zf wC2 llZero evK4 := by
  refine ⟨⟨rfl, rfl, ?_, ?_, ?_⟩, ⟨rfl, rfl, ?_, ?_, ?_⟩, ⟨rfl, rfl, ?_, ?_, ?_⟩, ?_⟩
  · intro i hi j hj
    interval_cases i <;> interval_cases j <;>
      simp [dA, evA, idMR, diagMR, matmulM, transposeM, Finset.sum_range_succ]
  · intro i hi j hj
    interval_cases i <;> interval_cases j <;>
      simp [idMR, matmulM, transposeM, Finset.sum_range_succ]
  · intro i j hij hj
    interval_cases j <;> interval_cases i <;> norm_num [evA]
  · intro i hi j hj
    interval_cases i <;> interval_cases j <;>
      simp [dB, evB, idMR, diagMR, matmulM, transposeM, Finset.sum_range_succ]
  · intro i hi j hj
    interval_cases i <;> interval_cases j <;>
      simp [idMR, matmulM, transposeM, Finset.sum_range_succ]
  · intro i j hij hj
    interval_cases j <;> interval_cases i <;> norm_num [evB]
  · intro i hi j hj
    interval_cases i <;> interval_cases j <;>
      simp [kron_list, kron, dA, dB, evK4, pSwap, idMR, diagMR, matmulM, transposeM,
        Finset.sum_range_succ] <;> norm_num
  · intro i hi j hj
    interval_cases i <;> interval_cases j <;>
      simp [pSwap, idMR, matmulM, transposeM, Finset.sum_range_succ]
  · intro i j hij hj
    interval_cases j <;> interval_cases i <;> norm_num [evK4]
  · have hL : marginalKron 4 zf zf zf zf wC2 llZero [(2, evA), (2, evB)] =
        -(1 / 2) * Real.log 6 := by
      simp [marginalKron, eigKron, kron_list, kron, colM, evA, evB, wC2, zf, llZero,
        Finset.sum_range_succ, Real.log_one]
      norm_num
    have hR : marginalExplicit 4 zf zf zf zf wC2 llZero evK4 =
        -(1 / 2) * Real.log 3 := by
      simp [marginalExplicit, evK4, wC2, zf, llZero, Finset.sum_range_succ, Real.log_one]
      norm_num
    rw [hL, hR]
    have h36 : Real.log 3 < Real.log 6 := Real.log_lt_log (by norm_num) (by norm_num)
    intro h
    have := mul_left_cancel₀ (show -(1 / 2 : ℝ) ≠ 0 by norm_num) h
    exact absurd this (ne_of_gt h36)

/-- C2 (amended): the eigenvalue multisets do agree, so whenever the explicit
ascending eigenvalue vector is a rearrangement of the flattened Kronecker
eigenvalue vector AND `W` is constant across entries, the two marginal
computations coincide; the counterexample shows the claim fails as soon as the
elementwise pairing with a non-constant `W` matters. -/
theorem marginal_eig_rearrangement (n : ℕ) (mu y alpha f : ℕ → ℝ)
    (ll : ℝ → ℝ → ℝ) (evs : List (ℕ × (ℕ → ℝ))) (evK : ℕ → ℝ) (c : ℝ)
    (hperm : Multiset.map evK (Finset.range n).val =
      Multiset.map (eigKron evs) (Finset.range n).val) :
    marginalExplicit n mu y alpha f (fun _ => c) ll evK =
      marginalKron n mu y alpha f (fun _ => c) ll evs := by
  unfold marginalExplicit marginalKron
  have hsum : (∑ i in Finset.range n, Real.log (1 + evK i * c)) =
      ∑ i in Finset.range n, Real.log (1 + eigKron evs i * c) := by
    have h1 : ∀ g : ℕ → ℝ, (∑ i in Finset.range n, Real.log (1 + g i * c)) =
        (Multiset.map (fun t => Real.log (1 + t * c))
          (Multiset.map g (Finset.range n).val)).sum := by
      intro g
      rw [Finset.sum, Multiset.map_map]
      rfl
    rw [h1 evK, h1 (eigKron evs), hperm]
  rw [hsum]

/-- Two trivial one-point factors for the C2 witness. -/
noncomputable def evs1 : List (ℕ × (ℕ → ℝ)) := [(1, zf), (1, zf)]

/-- Witness for C2 (amended): with two one-point factors, constant `W = 0` and
the explicit eigenvalue vector taken equal to the flattened Kronecker one, the
rearrangement hypothesis holds definitionally and the two marginals agree. -/
theorem marginal_eig_rearrangement_witness :
    (Multiset.map (eigKron evs1) (Finset.range 1).val =
        Multiset.map (eigKron evs1) (Finset.range 1).val) ∧
      marginalExplicit 1 zf zf zf zf (fun _ => 0) llZero (eigKron evs1) =
        marginalKron 1 zf zf zf zf (fun _ => 0) llZero evs1 :=
  ⟨rfl, marginal_eig_rearrangement 1 zf zf zf zf llZero evs1 (eigKron evs1) 0 rfl⟩

end PyPoint
